import Mathlib

/-!
Verification of the map-reduce summarization core of a PDF-summary service:
the chunker (`app/services/chunker.py`) and the orchestrator
(`app/services/summarizer.py`).

Text is modelled as `List Char` (Python `len` on `str` counts characters,
matching `List.length`).  The external LLM is modelled as an oracle
`gen : GenCall → Except GenerationError (List Char)`: a generation call either
returns the generated text or raises.  `summarize_text` additionally returns
the ordered trace of generation calls it issues, so that call-count properties
can be stated; the first component is exactly the Python return value
(`Except.error` modelling a propagated exception).
-/

/-- Python `str.isspace` on the common ASCII whitespace characters; used to
model `str.strip()`. -/
def is_space (c : Char) : Bool :=
  c == ' ' || c == '\t' || c == '\n' || c == '\r' || c == '\x0b' || c == '\x0c'

/-- Python `text.strip()`: remove leading and trailing whitespace. -/
def strip (cs : List Char) : List Char :=
  ((cs.dropWhile is_space).reverse.dropWhile is_space).reverse

/-- `CHUNK_SIZE` from `app/services/chunker.py` (characters). -/
def CHUNK_SIZE : Nat := 4000

/-- `CHUNK_OVERLAP` from `app/services/chunker.py` (characters). -/
def CHUNK_OVERLAP : Nat := 200

/-- Modelled from the spec: the large-document path of
`split_text_into_chunks` delegates to the external recursive character text
splitter (a third-party library, not part of this repository's sources).
Per spec §4.1 the splitter cuts the text into bounded pieces, hard-splitting
at character boundaries as the last resort, and "adjacent chunks overlap by
`overlap` characters"; we model this guaranteed output shape: maximal chunks
of `CHUNK_SIZE` characters whose start positions advance by
`CHUNK_SIZE - CHUNK_OVERLAP`, so each chunk begins with the final
`CHUNK_OVERLAP` characters of its predecessor. -/
def hardSplit (cs : List Char) : List (List Char) :=
  if h : cs.length ≤ CHUNK_SIZE then [cs]
  else cs.take CHUNK_SIZE :: hardSplit (cs.drop (CHUNK_SIZE - CHUNK_OVERLAP))
termination_by cs.length
decreasing_by
  simp only [List.length_drop, CHUNK_SIZE, CHUNK_OVERLAP] at *
  omega

/-- `split_text_into_chunks` from `app/services/chunker.py`:
empty/whitespace-only input gives no chunks; trimmed text of at most
`CHUNK_SIZE` characters is a single chunk; longer text goes to the
recursive splitter (modelled by `hardSplit`). -/
def split_text_into_chunks (text : List Char) : List (List Char) :=
  if strip text = [] then []
  else
    let t := strip text
    if t.length ≤ CHUNK_SIZE then [t]
    else hardSplit t

/-- `get_chunk_count` from `app/services/chunker.py`. -/
def get_chunk_count (text : List Char) : Nat :=
  (split_text_into_chunks text).length

/-- Reassemble a chunk list, dropping from every chunk after the first the
`CHUNK_OVERLAP` characters it shares with its predecessor.  Equality of
`overlapJoin chunks` with the split text expresses gap-free coverage. -/
def overlapJoin : List (List Char) → List Char
  | [] => []
  | c :: t => c ++ (t.map (List.drop CHUNK_OVERLAP)).flatten

/-- The error raised by a failed generation call (spec `GenerationError`). -/
structure GenerationError where
  msg : List Char
deriving DecidableEq

/-- One generation request issued by the orchestrator: either a map call
(`_summarize_chunk chunk`) or a combine call (`_combine_summaries batch`).
The prompt text is a fixed template around the payload recorded here. -/
inductive GenCall where
  | mapCall (chunk : List Char)
  | combineCall (summaries : List (List Char))
deriving DecidableEq

/-- `asyncio.gather` over generation calls: all results in input order, or the
first raised `GenerationError` if any call fails. -/
def gatherE {α β : Type} (f : α → Except GenerationError β) :
    List α → Except GenerationError (List β)
  | [] => Except.ok []
  | a :: l =>
    match f a with
    | Except.error e => Except.error e
    | Except.ok b =>
      match gatherE f l with
      | Except.error e => Except.error e
      | Except.ok r => Except.ok (b :: r)

/-- `max_summaries_per_reduce` from `summarize_text` (the batch limit K). -/
def max_summaries_per_reduce : Nat := 10

/-- The batch list `[lst[i:i+10] for i in range(0, len(lst), 10)]` of
`summarize_text`: consecutive slices of at most ten summaries. -/
def toBatches (l : List (List Char)) : List (List (List Char)) :=
  if h : l = [] then []
  else l.take max_summaries_per_reduce :: toBatches (l.drop max_summaries_per_reduce)
termination_by l.length
decreasing_by
  have hl : l.length ≠ 0 := fun hz => h (List.eq_nil_of_length_eq_zero hz)
  simp only [List.length_drop, max_summaries_per_reduce]
  omega

/-- The iterative reduce loop of `summarize_text` together with the final
combine: while more than ten summaries remain, batch them and combine each
batch concurrently; once at most ten remain, issue the single final combine
call.  The second component records the calls of each pass (one inner list
per pass, the final combine being the last pass). -/
def reduceLoop (gen : GenCall → Except GenerationError (List Char))
    (sums : List (List Char)) :
    Except GenerationError (List Char) × List (List GenCall) :=
  if h : max_summaries_per_reduce < sums.length then
    let batches := toBatches sums
    match hm : gatherE (fun b => gen (GenCall.combineCall b)) batches with
    | Except.error e => (Except.error e, [batches.map (fun b => GenCall.combineCall b)])
    | Except.ok next =>
      let r := reduceLoop gen next
      (r.1, batches.map (fun b => GenCall.combineCall b) :: r.2)
  else
    (gen (GenCall.combineCall sums), [[GenCall.combineCall sums]])
termination_by sums.length
decreasing_by
  have hlen_gather : ∀ (l : List (List (List Char))) (r : List (List Char)),
      gatherE (fun b => gen (GenCall.combineCall b)) l = Except.ok r → r.length = l.length := by
    intro l
    induction l with
    | nil =>
      intro r hr
      simp only [gatherE] at hr
      cases hr
      rfl
    | cons a t ih =>
      intro r hr
      simp only [gatherE] at hr
      cases hfa : gen (GenCall.combineCall a) with
      | error e => rw [hfa] at hr; cases hr
      | ok b =>
        rw [hfa] at hr
        cases hrest : gatherE (fun b => gen (GenCall.combineCall b)) t with
        | error e => rw [hrest] at hr; cases hr
        | ok rt =>
          rw [hrest] at hr
          cases hr
          simp [ih rt hrest]
  have hA : ∀ (m : Nat) (l : List (List Char)), l.length ≤ m →
      (toBatches l).length ≤ l.length := by
    intro m
    induction m with
    | zero =>
      intro l hl
      have hz : l = [] := List.eq_nil_of_length_eq_zero (Nat.le_zero.mp hl)
      subst hz
      rw [toBatches]
      simp
    | succ m ih =>
      intro l hl
      by_cases hnil : l = []
      · subst hnil
        rw [toBatches]
        simp
      · rw [toBatches, dif_neg hnil]
        have hpos : 0 < l.length := List.length_pos.mpr hnil
        have hrec := ih (l.drop max_summaries_per_reduce) (by
          simp only [List.length_drop, max_summaries_per_reduce]
          omega)
        simp only [List.length_cons, List.length_drop, max_summaries_per_reduce] at hrec ⊢
        omega
  have h1 := hlen_gather batches next hm
  have hsne : sums ≠ [] := by
    intro hz
    rw [hz] at h
    simp [max_summaries_per_reduce] at h
  have hb : batches = toBatches sums := rfl
  rw [hb, toBatches, dif_neg hsne] at h1
  have h2 := hA (sums.drop max_summaries_per_reduce).length (sums.drop max_summaries_per_reduce)
    (Nat.le_refl _)
  simp only [List.length_cons, List.length_drop, max_summaries_per_reduce] at h1 h2 h ⊢
  omega

/-- The Python expression `chunks[0] if chunks else text`. -/
def headOrFallback (chunks : List (List Char)) (text : List Char) : List Char :=
  match chunks with
  | [] => text
  | c :: _ => c

/-- The sentinel returned for empty input. -/
def noContentMsg : List Char := "No content to summarize.".data

/-- `summarize_text` from `app/services/summarizer.py`, instrumented with the
ordered list of generation calls issued.  Empty/whitespace input returns the
sentinel with no calls; a single chunk is summarized directly by one map
call; otherwise all chunks are summarized concurrently (map phase) and the
partial summaries are reduced by `reduceLoop`. -/
def summarize_text (gen : GenCall → Except GenerationError (List Char))
    (text : List Char) :
    Except GenerationError (List Char) × List GenCall :=
  if strip text = [] then (Except.ok noContentMsg, [])
  else
    let chunks := split_text_into_chunks text
    if chunks.length ≤ 1 then
      (gen (GenCall.mapCall (headOrFallback chunks text)),
       [GenCall.mapCall (headOrFallback chunks text)])
    else
      match gatherE (fun c => gen (GenCall.mapCall c)) chunks with
      | Except.error e => (Except.error e, chunks.map (fun c => GenCall.mapCall c))
      | Except.ok sums =>
        let r := reduceLoop gen sums
        (r.1, chunks.map (fun c => GenCall.mapCall c) ++ r.2.flatten)

/-- A generation oracle that always succeeds, for concrete instantiations. -/
def wGen : GenCall → Except GenerationError (List Char) :=
  fun _ => Except.ok "ok".data

/-- A generation oracle whose every call raises, for concrete instantiations
of the failure semantics. -/
def errGen : GenCall → Except GenerationError (List Char) :=
  fun _ => Except.error ⟨"boom".data⟩

/-- A concrete input with leading whitespace and a trimmed length above
`CHUNK_SIZE`. -/
def c3BadText : List Char := ' ' :: List.replicate 4001 'a'

theorem gatherE_ok_length {α β : Type} (f : α → Except GenerationError β) :
    ∀ (l : List α) (r : List β), gatherE f l = Except.ok r → r.length = l.length := by
  intro l
  induction l with
  | nil => intro r h; simp only [gatherE] at h; cases h; rfl
  | cons a t ih =>
    intro r h
    simp only [gatherE] at h
    cases hfa : f a with
    | error e => rw [hfa] at h; cases h
    | ok b =>
      rw [hfa] at h
      cases hrest : gatherE f t with
      | error e => rw [hrest] at h; cases h
      | ok rt =>
        rw [hrest] at h
        cases h
        simp [ih rt hrest]

theorem toBatches_length (n : Nat) :
    ∀ l : List (List Char), l.length ≤ n → (toBatches l).length = (l.length + 9) / 10 := by
  induction n with
  | zero =>
    intro l hl
    have : l = [] := List.eq_nil_of_length_eq_zero (Nat.le_zero.mp hl)
    subst this
    simp [toBatches]
  | succ n ih =>
    intro l hl
    by_cases hnil : l = []
    · subst hnil; simp [toBatches]
    · rw [toBatches]
      simp only [hnil, dite_false]
      have hpos : 0 < l.length := List.length_pos.mpr hnil
      have hdrop : (l.drop max_summaries_per_reduce).length = l.length - 10 := by
        simp [max_summaries_per_reduce]
      have := ih (l.drop max_summaries_per_reduce) (by
        rw [hdrop]; omega)
      simp only [List.length_cons, this, hdrop]
      omega

theorem strip_eq_nil_of_all_space {text : List Char} (h : text.all is_space = true) :
    strip text = [] := by
  have h1 : text.dropWhile is_space = [] :=
    List.dropWhile_eq_nil_iff.mpr (fun x hx => List.all_eq_true.mp h x hx)
  simp [strip, h1]

theorem dropWhile_replicate_of_not_space {c : Char} (h : is_space c = false) (n : Nat) :
    List.dropWhile is_space (List.replicate n c) = List.replicate n c := by
  cases n with
  | zero => rfl
  | succ m => simp [List.replicate_succ, List.dropWhile_cons, h]

theorem strip_replicate_of_not_space {c : Char} (h : is_space c = false) (n : Nat) :
    strip (List.replicate n c) = List.replicate n c := by
  simp [strip, dropWhile_replicate_of_not_space h, List.reverse_replicate]

theorem strip_cons_space_replicate (n : Nat) :
    strip (' ' :: List.replicate n 'a') = List.replicate n 'a' := by
  have ha : is_space 'a' = false := by decide
  simp [strip, List.dropWhile_cons, show is_space ' ' = true from by decide,
    dropWhile_replicate_of_not_space ha, List.reverse_replicate]

theorem hardSplit_head (cs : List Char) :
    ∃ t, hardSplit cs = cs.take CHUNK_SIZE :: t := by
  rw [hardSplit]
  by_cases h : cs.length ≤ CHUNK_SIZE
  · exact ⟨[], by rw [dif_pos h, List.take_of_length_le h]⟩
  · exact ⟨hardSplit (cs.drop (CHUNK_SIZE - CHUNK_OVERLAP)), by rw [dif_neg h]⟩

theorem hardSplit_ne_nil (cs : List Char) : hardSplit cs ≠ [] := by
  obtain ⟨t, ht⟩ := hardSplit_head cs
  simp [ht]

theorem hardSplit_sizes :
    ∀ (n : Nat) (cs : List Char), cs.length ≤ n →
      ∀ c ∈ hardSplit cs, c.length ≤ CHUNK_SIZE := by
  intro n
  induction n with
  | zero =>
    intro cs hn c hc
    have hcs : cs.length ≤ CHUNK_SIZE := by simp [CHUNK_SIZE]; omega
    rw [hardSplit, dif_pos hcs] at hc
    simp at hc
    subst hc
    exact hcs
  | succ n ih =>
    intro cs hn c hc
    by_cases h : cs.length ≤ CHUNK_SIZE
    · rw [hardSplit, dif_pos h] at hc
      simp at hc
      subst hc
      exact h
    · rw [hardSplit, dif_neg h] at hc
      rcases List.mem_cons.mp hc with h1 | h2
      · subst h1
        simp [List.length_take]
      · refine ih (cs.drop (CHUNK_SIZE - CHUNK_OVERLAP)) ?_ c h2
        simp only [List.length_drop, CHUNK_SIZE, CHUNK_OVERLAP] at *
        omega

theorem hardSplit_drop_flatten :
    ∀ (n : Nat) (cs : List Char), cs.length ≤ n →
      ((hardSplit cs).map (List.drop CHUNK_OVERLAP)).flatten = cs.drop CHUNK_OVERLAP := by
  intro n
  induction n with
  | zero =>
    intro cs hn
    have hcs : cs.length ≤ CHUNK_SIZE := by simp [CHUNK_SIZE]; omega
    rw [hardSplit, dif_pos hcs]
    simp
  | succ n ih =>
    intro cs hn
    by_cases h : cs.length ≤ CHUNK_SIZE
    · rw [hardSplit, dif_pos h]
      simp
    · rw [hardSplit, dif_neg h]
      have hrec := ih (cs.drop (CHUNK_SIZE - CHUNK_OVERLAP)) (by
        simp only [List.length_drop, CHUNK_SIZE, CHUNK_OVERLAP] at *
        omega)
      simp only [List.map_cons, List.flatten_cons, hrec]
      rw [List.drop_take CHUNK_SIZE CHUNK_OVERLAP, List.drop_drop,
        show CHUNK_SIZE - CHUNK_OVERLAP + CHUNK_OVERLAP = CHUNK_SIZE from by
          simp [CHUNK_SIZE, CHUNK_OVERLAP]]
      conv_rhs => rw [← List.take_append_drop (CHUNK_SIZE - CHUNK_OVERLAP) (cs.drop CHUNK_OVERLAP)]
      rw [List.drop_drop,
        show CHUNK_OVERLAP + (CHUNK_SIZE - CHUNK_OVERLAP) = CHUNK_SIZE from by
          simp [CHUNK_SIZE, CHUNK_OVERLAP]]

theorem hardSplit_overlapJoin (cs : List Char) :
    overlapJoin (hardSplit cs) = cs := by
  by_cases h : cs.length ≤ CHUNK_SIZE
  · rw [hardSplit, dif_pos h]
    simp [overlapJoin]
  · rw [hardSplit, dif_neg h]
    have hrec := hardSplit_drop_flatten (cs.drop (CHUNK_SIZE - CHUNK_OVERLAP)).length
      (cs.drop (CHUNK_SIZE - CHUNK_OVERLAP)) (Nat.le_refl _)
    simp only [overlapJoin, hrec]
    rw [List.drop_drop]
    have e1 : CHUNK_SIZE - CHUNK_OVERLAP + CHUNK_OVERLAP = CHUNK_SIZE := by
      simp [CHUNK_SIZE, CHUNK_OVERLAP]
    rw [e1, List.take_append_drop]

theorem hardSplit_chain :
    ∀ (n : Nat) (cs : List Char), cs.length ≤ n →
      List.Chain' (fun a b => a.drop (CHUNK_SIZE - CHUNK_OVERLAP) = b.take CHUNK_OVERLAP)
        (hardSplit cs) := by
  intro n
  induction n with
  | zero =>
    intro cs hn
    have hcs : cs.length ≤ CHUNK_SIZE := by simp [CHUNK_SIZE]; omega
    rw [hardSplit, dif_pos hcs]
    simp
  | succ n ih =>
    intro cs hn
    by_cases h : cs.length ≤ CHUNK_SIZE
    · rw [hardSplit, dif_pos h]
      simp
    · rw [hardSplit, dif_neg h]
      have hlen : (cs.drop (CHUNK_SIZE - CHUNK_OVERLAP)).length ≤ n := by
        simp only [List.length_drop, CHUNK_SIZE, CHUNK_OVERLAP] at *
        omega
      refine List.chain'_cons'.mpr ⟨?_, ih _ hlen⟩
      intro y hy
      obtain ⟨t, ht⟩ := hardSplit_head (cs.drop (CHUNK_SIZE - CHUNK_OVERLAP))
      rw [ht] at hy
      simp only [List.head?_cons, Option.mem_def, Option.some.injEq] at hy
      subst hy
      rw [List.take_take, List.drop_take CHUNK_SIZE (CHUNK_SIZE - CHUNK_OVERLAP)]
      have e1 : CHUNK_SIZE - (CHUNK_SIZE - CHUNK_OVERLAP) = CHUNK_OVERLAP := by
        simp [CHUNK_SIZE, CHUNK_OVERLAP]
      have e2 : CHUNK_OVERLAP ⊓ CHUNK_SIZE = CHUNK_OVERLAP := by
        simp [CHUNK_SIZE, CHUNK_OVERLAP]
      rw [e1, e2]

theorem hardSplit_replicate_length (c : Char) :
    ∀ k : Nat, (hardSplit (List.replicate (4000 + 3800 * k) c)).length = k + 1 := by
  intro k
  induction k with
  | zero =>
    rw [hardSplit, dif_pos (by simp only [List.length_replicate, CHUNK_SIZE]; omega)]
    rfl
  | succ k ih =>
    rw [hardSplit, dif_neg (by simp only [List.length_replicate, CHUNK_SIZE]; omega)]
    have e0 : 4000 + 3800 * (k + 1) - (CHUNK_SIZE - CHUNK_OVERLAP) = 4000 + 3800 * k := by
      simp only [CHUNK_SIZE, CHUNK_OVERLAP]
      omega
    have e1 : (List.replicate (4000 + 3800 * (k + 1)) c).drop (CHUNK_SIZE - CHUNK_OVERLAP) =
        List.replicate (4000 + 3800 * k) c := by
      rw [List.drop_replicate, e0]
    rw [e1]
    simp [ih]

theorem split_of_small {text : List Char} (h1 : strip text ≠ [])
    (h2 : (strip text).length ≤ CHUNK_SIZE) :
    split_text_into_chunks text = [strip text] := by
  simp [split_text_into_chunks, h1, h2]

theorem split_of_large {text : List Char} (h : CHUNK_SIZE < (strip text).length) :
    split_text_into_chunks text = hardSplit (strip text) := by
  have h1 : strip text ≠ [] := by
    intro hnil
    rw [hnil] at h
    simp [CHUNK_SIZE] at h
  simp [split_text_into_chunks, h1, Nat.not_le.mpr h]

theorem split_ne_nil {text : List Char} (h : strip text ≠ []) :
    split_text_into_chunks text ≠ [] := by
  by_cases h2 : (strip text).length ≤ CHUNK_SIZE
  · rw [split_of_small h h2]
    simp
  · rw [split_of_large (Nat.not_le.mp h2)]
    exact hardSplit_ne_nil _

theorem strip_ne_nil_of_split_ne_nil {text : List Char}
    (h : split_text_into_chunks text ≠ []) : strip text ≠ [] := by
  intro hnil
  apply h
  simp [split_text_into_chunks, hnil]

theorem gatherE_ok_forall2 {α β : Type} (f : α → Except GenerationError β) :
    ∀ (l : List α) (r : List β), gatherE f l = Except.ok r →
      List.Forall₂ (fun a b => f a = Except.ok b) l r := by
  intro l
  induction l with
  | nil =>
    intro r h
    simp only [gatherE] at h
    cases h
    exact List.Forall₂.nil
  | cons a t ih =>
    intro r h
    simp only [gatherE] at h
    cases hfa : f a with
    | error e => rw [hfa] at h; cases h
    | ok b =>
      rw [hfa] at h
      cases hrest : gatherE f t with
      | error e => rw [hrest] at h; cases h
      | ok rt =>
        rw [hrest] at h
        cases h
        exact List.Forall₂.cons hfa (ih rt hrest)

theorem gatherE_all_ok {α β : Type} (f : α → Except GenerationError β) :
    ∀ l : List α, (∀ a ∈ l, ∃ b, f a = Except.ok b) →
      ∃ r, gatherE f l = Except.ok r ∧
        List.Forall₂ (fun a b => f a = Except.ok b) l r := by
  intro l
  induction l with
  | nil => exact fun _ => ⟨[], rfl, List.Forall₂.nil⟩
  | cons a t ih =>
    intro hall
    obtain ⟨b, hb⟩ := hall a (List.mem_cons_self a t)
    obtain ⟨r, hr, hf⟩ := ih (fun x hx => hall x (List.mem_cons_of_mem a hx))
    refine ⟨b :: r, ?_, List.Forall₂.cons hb hf⟩
    simp only [gatherE, hb, hr]

theorem gatherE_error_of {α β : Type} (f : α → Except GenerationError β)
    (e : GenerationError) :
    ∀ (l : List α) (a : α), a ∈ l → f a = Except.error e →
      (∀ x ∈ l, f x = Except.error e ∨ ∃ b, f x = Except.ok b) →
      gatherE f l = Except.error e := by
  intro l
  induction l with
  | nil =>
    intro a ha
    exact absurd ha (List.not_mem_nil a)
  | cons x t ih =>
    intro a ha hfa hall
    rcases hall x (List.mem_cons_self x t) with hx | ⟨b, hb⟩
    · simp only [gatherE, hx]
    · rcases List.mem_cons.mp ha with rfl | hat
      · rw [hfa] at hb
        cases hb
      · have hrec := ih a hat hfa (fun y hy => hall y (List.mem_cons_of_mem x hy))
        simp only [gatherE, hb, hrec]

theorem toBatches_flatten :
    ∀ (n : Nat) (l : List (List Char)), l.length ≤ n → (toBatches l).flatten = l := by
  intro n
  induction n with
  | zero =>
    intro l hl
    have : l = [] := List.eq_nil_of_length_eq_zero (Nat.le_zero.mp hl)
    subst this
    simp [toBatches]
  | succ n ih =>
    intro l hl
    by_cases hnil : l = []
    · subst hnil
      simp [toBatches]
    · rw [toBatches, dif_neg hnil]
      have hpos : 0 < l.length := List.length_pos.mpr hnil
      have hrec := ih (l.drop max_summaries_per_reduce) (by
        simp only [List.length_drop, max_summaries_per_reduce]
        omega)
      simp only [List.flatten_cons, hrec, List.take_append_drop]

theorem toBatches_mem_length :
    ∀ (n : Nat) (l : List (List Char)), l.length ≤ n →
      ∀ b ∈ toBatches l, b.length ≤ max_summaries_per_reduce := by
  intro n
  induction n with
  | zero =>
    intro l hl b hb
    have : l = [] := List.eq_nil_of_length_eq_zero (Nat.le_zero.mp hl)
    subst this
    simp [toBatches] at hb
  | succ n ih =>
    intro l hl b hb
    by_cases hnil : l = []
    · subst hnil
      simp [toBatches] at hb
    · rw [toBatches, dif_neg hnil] at hb
      rcases List.mem_cons.mp hb with h1 | h2
      · subst h1
        simp [List.length_take]
      · refine ih (l.drop max_summaries_per_reduce) ?_ b h2
        have hpos : 0 < l.length := List.length_pos.mpr hnil
        simp only [List.length_drop, max_summaries_per_reduce] at *
        omega

theorem toBatches_of_len15 (l : List (List Char)) (h : l.length = 15) :
    toBatches l = [l.take max_summaries_per_reduce, l.drop max_summaries_per_reduce] := by
  have h1 : l ≠ [] := by
    intro hn
    rw [hn] at h
    simp at h
  rw [toBatches, dif_neg h1]
  have hd5 : (l.drop max_summaries_per_reduce).length = 5 := by
    simp [max_summaries_per_reduce, h]
  have hd : l.drop max_summaries_per_reduce ≠ [] := by
    intro hn
    rw [hn] at hd5
    simp at hd5
  rw [toBatches, dif_neg hd]
  have ht : (l.drop max_summaries_per_reduce).length ≤ max_summaries_per_reduce := by
    rw [hd5]
    simp [max_summaries_per_reduce]
  rw [List.take_of_length_le ht]
  have hnil2 : (l.drop max_summaries_per_reduce).drop max_summaries_per_reduce = [] :=
    List.drop_eq_nil_of_le ht
  rw [hnil2]
  simp [toBatches]

theorem reduceLoop_base (gen : GenCall → Except GenerationError (List Char))
    (sums : List (List Char)) (h : ¬ max_summaries_per_reduce < sums.length) :
    reduceLoop gen sums = (gen (GenCall.combineCall sums), [[GenCall.combineCall sums]]) := by
  rw [reduceLoop, dif_neg h]

theorem reduceLoop_step (gen : GenCall → Except GenerationError (List Char))
    (sums next : List (List Char)) (h : max_summaries_per_reduce < sums.length)
    (hm : gatherE (fun b => gen (GenCall.combineCall b)) (toBatches sums) = Except.ok next) :
    reduceLoop gen sums =
      ((reduceLoop gen next).1,
        (toBatches sums).map (fun b => GenCall.combineCall b) :: (reduceLoop gen next).2) := by
  rw [reduceLoop, dif_pos h]
  simp only []
  split
  · rename_i e heq
    rw [hm] at heq
    cases heq
  · rename_i next' heq
    rw [hm] at heq
    cases heq
    rfl

theorem reduceLoop_error (gen : GenCall → Except GenerationError (List Char))
    (sums : List (List Char)) (e : GenerationError) (h : max_summaries_per_reduce < sums.length)
    (hm : gatherE (fun b => gen (GenCall.combineCall b)) (toBatches sums) = Except.error e) :
    reduceLoop gen sums =
      (Except.error e, [(toBatches sums).map (fun b => GenCall.combineCall b)]) := by
  rw [reduceLoop, dif_pos h]
  simp only []
  split
  · rename_i e' heq
    rw [hm] at heq
    cases heq
    rfl
  · rename_i next' heq
    rw [hm] at heq
    cases heq

theorem summarize_empty (gen : GenCall → Except GenerationError (List Char))
    (text : List Char) (h : strip text = []) :
    summarize_text gen text = (Except.ok noContentMsg, []) := by
  simp [summarize_text, h]

theorem summarize_single (gen : GenCall → Except GenerationError (List Char))
    (text c : List Char) (h : split_text_into_chunks text = [c]) :
    summarize_text gen text = (gen (GenCall.mapCall c), [GenCall.mapCall c]) := by
  have h1 : strip text ≠ [] := strip_ne_nil_of_split_ne_nil (by rw [h]; simp)
  simp [summarize_text, h1, h, headOrFallback]

theorem summarize_multi_ok (gen : GenCall → Except GenerationError (List Char))
    (text : List Char) (sums : List (List Char))
    (h2 : 1 < (split_text_into_chunks text).length)
    (hm : gatherE (fun c => gen (GenCall.mapCall c)) (split_text_into_chunks text) =
      Except.ok sums) :
    summarize_text gen text =
      ((reduceLoop gen sums).1,
        (split_text_into_chunks text).map (fun c => GenCall.mapCall c) ++
          (reduceLoop gen sums).2.flatten) := by
  have h1 : strip text ≠ [] := strip_ne_nil_of_split_ne_nil (by
    intro hn
    rw [hn] at h2
    simp at h2)
  simp [summarize_text, h1, Nat.not_le.mpr h2, hm]

theorem summarize_multi_error (gen : GenCall → Except GenerationError (List Char))
    (text : List Char) (e : GenerationError)
    (h2 : 1 < (split_text_into_chunks text).length)
    (hm : gatherE (fun c => gen (GenCall.mapCall c)) (split_text_into_chunks text) =
      Except.error e) :
    summarize_text gen text =
      (Except.error e, (split_text_into_chunks text).map (fun c => GenCall.mapCall c)) := by
  have h1 : strip text ≠ [] := strip_ne_nil_of_split_ne_nil (by
    intro hn
    rw [hn] at h2
    simp at h2)
  simp [summarize_text, h1, Nat.not_le.mpr h2, hm]

theorem hardSplit_mem_chars :
    ∀ (n : Nat) (cs : List Char), cs.length ≤ n →
      ∀ c ∈ hardSplit cs, ∀ x ∈ c, x ∈ cs := by
  intro n
  induction n with
  | zero =>
    intro cs hn c hc x hx
    have hcs : cs.length ≤ CHUNK_SIZE := by simp [CHUNK_SIZE]; omega
    rw [hardSplit, dif_pos hcs] at hc
    simp at hc
    subst hc
    exact hx
  | succ n ih =>
    intro cs hn c hc x hx
    by_cases h : cs.length ≤ CHUNK_SIZE
    · rw [hardSplit, dif_pos h] at hc
      simp at hc
      subst hc
      exact hx
    · rw [hardSplit, dif_neg h] at hc
      rcases List.mem_cons.mp hc with h1 | h2
      · subst h1
        exact List.Sublist.mem hx (List.take_sublist _ _)
      · have hlen : (cs.drop (CHUNK_SIZE - CHUNK_OVERLAP)).length ≤ n := by
          simp only [List.length_drop, CHUNK_SIZE, CHUNK_OVERLAP] at *
          omega
        exact List.Sublist.mem (ih _ hlen c h2 x hx) (List.drop_sublist _ _)

theorem split_replicate_7800 :
    split_text_into_chunks (List.replicate 7800 'a') =
      [List.replicate 4000 'a', List.replicate 4000 'a'] := by
  have hs : strip (List.replicate 7800 'a') = List.replicate 7800 'a' :=
    strip_replicate_of_not_space (by decide) 7800
  rw [split_of_large (by
    rw [hs]
    simp only [List.length_replicate, CHUNK_SIZE]
    omega), hs]
  rw [hardSplit, dif_neg (by
    simp only [List.length_replicate, CHUNK_SIZE]
    omega)]
  rw [List.take_replicate, List.drop_replicate]
  rw [show CHUNK_SIZE ⊓ 7800 = 4000 from by simp only [CHUNK_SIZE]; omega]
  rw [show 7800 - (CHUNK_SIZE - CHUNK_OVERLAP) = 4000 from by
    simp only [CHUNK_SIZE, CHUNK_OVERLAP]]
  rw [hardSplit, dif_pos (by
    simp only [List.length_replicate, CHUNK_SIZE]
    omega)]

theorem split_replicate_57200_length :
    (split_text_into_chunks (List.replicate 57200 'a')).length = 15 := by
  have hs : strip (List.replicate 57200 'a') = List.replicate 57200 'a' :=
    strip_replicate_of_not_space (by decide) 57200
  rw [split_of_large (by
    rw [hs]
    simp only [List.length_replicate, CHUNK_SIZE]
    omega), hs]
  rw [show (57200 : Nat) = 4000 + 3800 * 14 from by norm_num]
  exact hardSplit_replicate_length 'a' 14

theorem toBatches_replicate11 :
    toBatches (List.replicate 11 (['x'] : List Char)) =
      [List.replicate 10 ['x'], [['x']]] := by
  rw [toBatches, dif_neg (by simp)]
  rw [List.take_replicate, List.drop_replicate]
  rw [show max_summaries_per_reduce ⊓ 11 = 10 from by simp [max_summaries_per_reduce]]
  rw [show 11 - max_summaries_per_reduce = 1 from by simp [max_summaries_per_reduce]]
  rw [toBatches, dif_neg (by simp)]
  rw [List.take_of_length_le (by simp [max_summaries_per_reduce])]
  rw [List.drop_eq_nil_of_le (by simp [max_summaries_per_reduce])]
  rw [toBatches]
  simp

theorem reduceLoop_passes (gen : GenCall → Except GenerationError (List Char))
    (hgen : ∀ call, ∃ s, gen call = Except.ok s) :
    ∀ (n : Nat) (sums : List (List Char)), sums.length ≤ n → 2 ≤ sums.length →
      (reduceLoop gen sums).2.length = Nat.clog 10 sums.length := by
  intro n
  induction n with
  | zero =>
    intro sums h1 h2
    omega
  | succ n ih =>
    intro sums h1 h2
    by_cases hn : max_summaries_per_reduce < sums.length
    · obtain ⟨next, hnext, _⟩ := gatherE_all_ok (fun b => gen (GenCall.combineCall b))
        (toBatches sums) (fun b _ => hgen (GenCall.combineCall b))
      have hlen : next.length = (sums.length + 9) / 10 := by
        rw [gatherE_ok_length _ _ _ hnext,
          toBatches_length sums.length sums (Nat.le_refl _)]
      rw [reduceLoop_step gen sums next hn hnext]
      simp only [List.length_cons]
      simp only [max_summaries_per_reduce] at hn
      have hnl2 : 2 ≤ next.length := by rw [hlen]; omega
      have hnln : next.length ≤ n := by rw [hlen]; omega
      rw [ih next hnln hnl2]
      rw [Nat.clog_of_two_le (by norm_num) h2,
        show sums.length + 10 - 1 = sums.length + 9 from by omega, hlen]
    · rw [reduceLoop_base gen sums hn]
      simp only [max_summaries_per_reduce] at hn
      rw [Nat.clog_of_two_le (by norm_num) h2,
        show sums.length + 10 - 1 = sums.length + 9 from by omega,
        show (sums.length + 9) / 10 = 1 from by omega, Nat.clog_one_right]
      simp

/-- Claim C6: for every input string that is empty or contains only
whitespace, `summarize_text` returns the fixed sentinel
"No content to summarize." and issues zero generation calls (for any
generation oracle); such input is not an error. -/
theorem c6_empty_input_sentinel (gen : GenCall → Except GenerationError (List Char))
    (text : List Char) (h : text.all is_space = true) :
    summarize_text gen text = (Except.ok noContentMsg, []) :=
  summarize_empty gen text (strip_eq_nil_of_all_space h)

/-- Witness for C6 at the concrete whitespace-only input `"  \t\n"`. -/
theorem c6_witness :
    ("  \t\n".data.all is_space = true) ∧
      summarize_text wGen "  \t\n".data = (Except.ok noContentMsg, []) :=
  ⟨by decide, c6_empty_input_sentinel wGen "  \t\n".data (by decide)⟩

/-- Claim C7: whenever the chunker returns exactly one chunk, `summarize_text`
issues exactly one generation call, a map ("summarize this section") call on
that chunk, no combine call, and returns that call's output directly. -/
theorem c7_single_chunk_single_call (gen : GenCall → Except GenerationError (List Char))
    (text c : List Char) (h : split_text_into_chunks text = [c]) :
    summarize_text gen text = (gen (GenCall.mapCall c), [GenCall.mapCall c]) :=
  summarize_single gen text c h

/-- Witness for C7 at the concrete input `" a "`, which splits into the
single chunk `"a"`. -/
theorem c7_witness :
    (split_text_into_chunks " a ".data = [['a']]) ∧
      summarize_text wGen " a ".data =
        (wGen (GenCall.mapCall ['a']), [GenCall.mapCall ['a']]) :=
  ⟨by decide, c7_single_chunk_single_call wGen " a ".data ['a'] (by decide)⟩

/-- Claim C8: for every input whose trimmed form is non-empty and at most
`CHUNK_SIZE` (4000) characters long, the chunker returns exactly one chunk,
equal to the trimmed input. -/
theorem c8_small_text_single_chunk (text : List Char) (h1 : strip text ≠ [])
    (h2 : (strip text).length ≤ CHUNK_SIZE) :
    split_text_into_chunks text = [strip text] :=
  split_of_small h1 h2

/-- Witness for C8 at the concrete input `" a "`. -/
theorem c8_witness :
    (strip " a ".data ≠ [] ∧ (strip " a ".data).length ≤ CHUNK_SIZE) ∧
      split_text_into_chunks " a ".data = [strip " a ".data] :=
  ⟨⟨by decide, by decide⟩,
    c8_small_text_single_chunk " a ".data (by decide) (by decide)⟩

/-- Claim C10: for every input whose trimmed form is non-empty the chunker
returns a non-empty list, so on the single-chunk path of `summarize_text` the
access `chunks[0]` never indexes an empty list and the `else text` fallback of
`chunks[0] if chunks else text` is unreachable once the emptiness guard has
been passed. -/
theorem c10_split_nonempty_no_fallback (text : List Char) (h : strip text ≠ []) :
    ∃ c rest, split_text_into_chunks text = c :: rest ∧
      headOrFallback (split_text_into_chunks text) text = c := by
  obtain ⟨c, rest, hcr⟩ : ∃ c rest, split_text_into_chunks text = c :: rest := by
    cases hsp : split_text_into_chunks text with
    | nil => exact absurd hsp (split_ne_nil h)
    | cons c rest => exact ⟨c, rest, rfl⟩
  refine ⟨c, rest, hcr, ?_⟩
  rw [hcr]
  rfl

/-- Witness for C10 at the concrete input `" a "`. -/
theorem c10_witness :
    (strip " a ".data ≠ []) ∧
      ∃ c rest, split_text_into_chunks " a ".data = c :: rest ∧
        headOrFallback (split_text_into_chunks " a ".data) " a ".data = c :=
  ⟨by decide, c10_split_nonempty_no_fallback " a ".data (by decide)⟩

/-- Claim C1: for every input that splits into exactly 15 chunks (batch limit
K = 10) and every everywhere-succeeding oracle, `summarize_text` issues
exactly 18 generation calls: 15 map calls (one per chunk, in chunk order),
then one reduce pass of 2 batches of sizes 10 and 5 producing two summaries,
then 1 final combine call whose output is returned as the final summary. -/
theorem c1_fifteen_chunks_eighteen_calls
    (gen : GenCall → Except GenerationError (List Char)) (text : List Char)
    (hlen : (split_text_into_chunks text).length = 15)
    (hgen : ∀ call, ∃ s, gen call = Except.ok s) :
    ∃ sums s₁ s₂ final,
      gatherE (fun c => gen (GenCall.mapCall c)) (split_text_into_chunks text) =
        Except.ok sums ∧
      sums.length = 15 ∧
      (sums.take max_summaries_per_reduce).length = 10 ∧
      (sums.drop max_summaries_per_reduce).length = 5 ∧
      gen (GenCall.combineCall (sums.take max_summaries_per_reduce)) = Except.ok s₁ ∧
      gen (GenCall.combineCall (sums.drop max_summaries_per_reduce)) = Except.ok s₂ ∧
      gen (GenCall.combineCall [s₁, s₂]) = Except.ok final ∧
      summarize_text gen text =
        (Except.ok final,
          (split_text_into_chunks text).map (fun c => GenCall.mapCall c) ++
            [GenCall.combineCall (sums.take max_summaries_per_reduce),
             GenCall.combineCall (sums.drop max_summaries_per_reduce),
             GenCall.combineCall [s₁, s₂]]) ∧
      (summarize_text gen text).2.length = 18 := by
  obtain ⟨sums, hsums, _⟩ := gatherE_all_ok (fun c => gen (GenCall.mapCall c))
    (split_text_into_chunks text) (fun a _ => hgen (GenCall.mapCall a))
  have hslen : sums.length = 15 := by
    rw [gatherE_ok_length _ _ _ hsums, hlen]
  have hbat := toBatches_of_len15 sums hslen
  obtain ⟨s₁, hs₁⟩ := hgen (GenCall.combineCall (sums.take max_summaries_per_reduce))
  obtain ⟨s₂, hs₂⟩ := hgen (GenCall.combineCall (sums.drop max_summaries_per_reduce))
  obtain ⟨final, hfin⟩ := hgen (GenCall.combineCall [s₁, s₂])
  have hg2 : gatherE (fun b => gen (GenCall.combineCall b)) (toBatches sums) =
      Except.ok [s₁, s₂] := by
    rw [hbat]
    simp only [gatherE, hs₁, hs₂]
  have hr1 := reduceLoop_step gen sums [s₁, s₂] (by rw [hslen]; decide) hg2
  have hr2 := reduceLoop_base gen [s₁, s₂] (by
    simp only [List.length_cons, List.length_nil, max_summaries_per_reduce]
    omega)
  have hsum := summarize_multi_ok gen text sums (by rw [hlen]; omega) hsums
  refine ⟨sums, s₁, s₂, final, hsums, hslen, ?_, ?_, hs₁, hs₂, hfin, ?_, ?_⟩
  · rw [List.length_take, hslen]
    decide
  · rw [List.length_drop, hslen]
    decide
  · rw [hsum, hr1, hr2, hbat, hfin]
    simp
  · rw [hsum, hr1, hr2, hbat]
    simp [hlen]

/-- Witness for C1 at the concrete input of 57200 'a's (which splits into
exactly 15 chunks) and the always-succeeding oracle. -/
theorem c1_witness :
    ((split_text_into_chunks (List.replicate 57200 'a')).length = 15) ∧
      ∃ sums s₁ s₂ final,
        gatherE (fun c => wGen (GenCall.mapCall c))
          (split_text_into_chunks (List.replicate 57200 'a')) = Except.ok sums ∧
        sums.length = 15 ∧
        (sums.take max_summaries_per_reduce).length = 10 ∧
        (sums.drop max_summaries_per_reduce).length = 5 ∧
        wGen (GenCall.combineCall (sums.take max_summaries_per_reduce)) = Except.ok s₁ ∧
        wGen (GenCall.combineCall (sums.drop max_summaries_per_reduce)) = Except.ok s₂ ∧
        wGen (GenCall.combineCall [s₁, s₂]) = Except.ok final ∧
        summarize_text wGen (List.replicate 57200 'a') =
          (Except.ok final,
            (split_text_into_chunks (List.replicate 57200 'a')).map
                (fun c => GenCall.mapCall c) ++
              [GenCall.combineCall (sums.take max_summaries_per_reduce),
               GenCall.combineCall (sums.drop max_summaries_per_reduce),
               GenCall.combineCall [s₁, s₂]]) ∧
        (summarize_text wGen (List.replicate 57200 'a')).2.length = 18 :=
  ⟨split_replicate_57200_length,
    c1_fifteen_chunks_eighteen_calls wGen (List.replicate 57200 'a')
      split_replicate_57200_length (fun _ => ⟨"ok".data, rfl⟩)⟩

/-- Claim C2: for every initial partial-summary count N greater than K = 10
and an everywhere-succeeding oracle, the reduce loop (a total function by
construction) strictly reduces the summary count on each pass, from N to
ceil(N / 10) = (N + 9) / 10, and the total number of reduce passes including
the final combine is `Nat.clog 10 N` = ceil(log_10 N). -/
theorem c2_reduce_pass_count (gen : GenCall → Except GenerationError (List Char))
    (sums : List (List Char)) (hn : max_summaries_per_reduce < sums.length)
    (hgen : ∀ call, ∃ s, gen call = Except.ok s) :
    (∀ next, gatherE (fun b => gen (GenCall.combineCall b)) (toBatches sums) =
        Except.ok next →
      next.length = (sums.length + 9) / 10 ∧ next.length < sums.length) ∧
    (reduceLoop gen sums).2.length = Nat.clog 10 sums.length := by
  constructor
  · intro next hnext
    have hlen : next.length = (sums.length + 9) / 10 := by
      rw [gatherE_ok_length _ _ _ hnext, toBatches_length sums.length sums (Nat.le_refl _)]
    refine ⟨hlen, ?_⟩
    rw [hlen]
    simp only [max_summaries_per_reduce] at hn
    omega
  · refine reduceLoop_passes gen hgen sums.length sums (Nat.le_refl _) ?_
    simp only [max_summaries_per_reduce] at hn
    omega

/-- Witness for C2 at eleven summaries and the always-succeeding oracle. -/
theorem c2_witness :
    (max_summaries_per_reduce < (List.replicate 11 (['x'] : List Char)).length) ∧
      ((∀ next, gatherE (fun b => wGen (GenCall.combineCall b))
            (toBatches (List.replicate 11 (['x'] : List Char))) = Except.ok next →
          next.length = ((List.replicate 11 (['x'] : List Char)).length + 9) / 10 ∧
            next.length < (List.replicate 11 (['x'] : List Char)).length) ∧
        (reduceLoop wGen (List.replicate 11 (['x'] : List Char))).2.length =
          Nat.clog 10 (List.replicate 11 (['x'] : List Char)).length) :=
  ⟨by decide,
    c2_reduce_pass_count wGen (List.replicate 11 ['x']) (by decide)
      (fun _ => ⟨"ok".data, rfl⟩)⟩

/-- Claim C3 counterexample: the claim asserts coverage of the full input,
but the chunker trims first.  On `c3BadText` (a leading blank followed by
4001 'a's, trimmed length 4001 > 4000) the leading blank is a character of
the input that occurs in no chunk, so the chunks do not cover the full
input. -/
theorem c3_counterexample :
    (' ' ∈ c3BadText) ∧ ∀ c ∈ split_text_into_chunks c3BadText, ' ' ∉ c := by
  constructor
  · exact List.mem_cons_self _ _
  · intro c hc hx
    have hs : strip c3BadText = List.replicate 4001 'a' := strip_cons_space_replicate 4001
    rw [split_of_large (by
      rw [hs]
      simp only [List.length_replicate, CHUNK_SIZE]
      omega), hs] at hc
    have hmem : ' ' ∈ List.replicate 4001 'a' :=
      hardSplit_mem_chars (List.replicate 4001 'a').length _ (Nat.le_refl _) c hc ' ' hx
    exact absurd (List.eq_of_mem_replicate hmem) (by decide)

/-- Claim C3 (amended): for every input whose trimmed length exceeds
CHUNK_SIZE (4000), the chunker returns at least two chunks, every chunk has
at most 4000 characters, consecutive chunks share an overlap region of at
most CHUNK_OVERLAP (200) characters (the trailing 200 characters of a chunk
are the leading 200 of its successor), and the chunks jointly cover the full
trimmed input with no gap: re-joining the chunks minus the shared overlaps
reconstructs the trimmed text exactly. -/
theorem c3_split_bounds_amended (text : List Char)
    (h : CHUNK_SIZE < (strip text).length) :
    2 ≤ (split_text_into_chunks text).length ∧
    (∀ c ∈ split_text_into_chunks text, c.length ≤ CHUNK_SIZE) ∧
    List.Chain' (fun a b => a.drop (CHUNK_SIZE - CHUNK_OVERLAP) = b.take CHUNK_OVERLAP)
      (split_text_into_chunks text) ∧
    overlapJoin (split_text_into_chunks text) = strip text := by
  rw [split_of_large h]
  refine ⟨?_, hardSplit_sizes (strip text).length _ (Nat.le_refl _),
    hardSplit_chain (strip text).length _ (Nat.le_refl _),
    hardSplit_overlapJoin _⟩
  rw [hardSplit, dif_neg (Nat.not_le.mpr h)]
  simp only [List.length_cons]
  have h1 := hardSplit_ne_nil ((strip text).drop (CHUNK_SIZE - CHUNK_OVERLAP))
  have h2 := List.length_pos.mpr h1
  omega

/-- Witness for the amended C3 at the concrete input of 4001 'a's. -/
theorem c3_witness :
    (CHUNK_SIZE < (strip (List.replicate 4001 'a')).length) ∧
      (2 ≤ (split_text_into_chunks (List.replicate 4001 'a')).length ∧
      (∀ c ∈ split_text_into_chunks (List.replicate 4001 'a'), c.length ≤ CHUNK_SIZE) ∧
      List.Chain' (fun a b => a.drop (CHUNK_SIZE - CHUNK_OVERLAP) = b.take CHUNK_OVERLAP)
        (split_text_into_chunks (List.replicate 4001 'a')) ∧
      overlapJoin (split_text_into_chunks (List.replicate 4001 'a')) =
        strip (List.replicate 4001 'a')) := by
  have hlen : CHUNK_SIZE < (strip (List.replicate 4001 'a')).length := by
    rw [strip_replicate_of_not_space (by decide) 4001]
    simp only [List.length_replicate, CHUNK_SIZE]
    omega
  exact ⟨hlen, c3_split_bounds_amended (List.replicate 4001 'a') hlen⟩

/-- Claim C4: a `GenerationError` raised by any single generation call of the
Map phase (first conjunct) or of a Reduce pass (second conjunct) propagates
to the caller: the run returns that error and no summary string at all,
regardless of whether every other concurrent call of the same fan-out
succeeds. -/
theorem c4_generation_error_propagates :
    (∀ (gen : GenCall → Except GenerationError (List Char)) (text c : List Char)
        (e : GenerationError),
      c ∈ split_text_into_chunks text →
      gen (GenCall.mapCall c) = Except.error e →
      (∀ c' ∈ split_text_into_chunks text,
        gen (GenCall.mapCall c') = Except.error e ∨
          ∃ s, gen (GenCall.mapCall c') = Except.ok s) →
      (summarize_text gen text).1 = Except.error e) ∧
    (∀ (gen : GenCall → Except GenerationError (List Char))
        (sums b : List (List Char)) (e : GenerationError),
      max_summaries_per_reduce < sums.length →
      b ∈ toBatches sums →
      gen (GenCall.combineCall b) = Except.error e →
      (∀ b' ∈ toBatches sums,
        gen (GenCall.combineCall b') = Except.error e ∨
          ∃ s, gen (GenCall.combineCall b') = Except.ok s) →
      (reduceLoop gen sums).1 = Except.error e) := by
  constructor
  · intro gen text c e hmem hfail hothers
    have hne : split_text_into_chunks text ≠ [] := by
      intro hn
      rw [hn] at hmem
      exact absurd hmem (List.not_mem_nil c)
    by_cases hlen : (split_text_into_chunks text).length ≤ 1
    · cases hsp : split_text_into_chunks text with
      | nil => exact absurd hsp hne
      | cons c0 rest =>
        have hr : rest = [] := by
          rw [hsp] at hlen
          simp only [List.length_cons] at hlen
          exact List.eq_nil_of_length_eq_zero (by omega)
        subst hr
        have hceq : c = c0 := by
          rw [hsp] at hmem
          simpa using hmem
        subst hceq
        rw [summarize_single gen text c hsp]
        simp [hfail]
    · have h2 : 1 < (split_text_into_chunks text).length := Nat.not_le.mp hlen
      have herr : gatherE (fun c => gen (GenCall.mapCall c))
          (split_text_into_chunks text) = Except.error e :=
        gatherE_error_of _ e _ c hmem hfail hothers
      rw [summarize_multi_error gen text e h2 herr]
  · intro gen sums b e hlen hmem hfail hothers
    have herr : gatherE (fun b => gen (GenCall.combineCall b)) (toBatches sums) =
        Except.error e :=
      gatherE_error_of _ e _ b hmem hfail hothers
    rw [reduceLoop_error gen sums e hlen herr]

/-- Witness for C4: with the always-failing oracle, a two-chunk input fails
in the Map phase and an eleven-summary reduce state fails in the Reduce
pass, each propagating the error. -/
theorem c4_witness :
    ((List.replicate 4000 'a' ∈ split_text_into_chunks (List.replicate 7800 'a')) ∧
      (summarize_text errGen (List.replicate 7800 'a')).1 =
        Except.error ⟨"boom".data⟩) ∧
    ((List.replicate 10 (['x'] : List Char) ∈
        toBatches (List.replicate 11 (['x'] : List Char))) ∧
      (reduceLoop errGen (List.replicate 11 (['x'] : List Char))).1 =
        Except.error ⟨"boom".data⟩) := by
  have hmem1 : List.replicate 4000 'a' ∈ split_text_into_chunks (List.replicate 7800 'a') := by
    rw [split_replicate_7800]
    exact List.mem_cons_self _ _
  have hmem2 : List.replicate 10 (['x'] : List Char) ∈
      toBatches (List.replicate 11 (['x'] : List Char)) := by
    rw [toBatches_replicate11]
    exact List.mem_cons_self _ _
  refine ⟨⟨hmem1, ?_⟩, ⟨hmem2, ?_⟩⟩
  · exact c4_generation_error_propagates.1 errGen (List.replicate 7800 'a')
      (List.replicate 4000 'a') ⟨"boom".data⟩ hmem1 rfl (fun c' _ => Or.inl rfl)
  · exact c4_generation_error_propagates.2 errGen (List.replicate 11 ['x'])
      (List.replicate 10 ['x']) ⟨"boom".data⟩ (by decide) hmem2 rfl
      (fun b' _ => Or.inl rfl)

/-- Claim C9: in every reduce pass the ordered summary list is partitioned by
`toBatches` into consecutive batches of size at most K = 10 whose in-order
concatenation equals the whole list, and on success the batch outputs replace
the batches in the same order: output i is the combine of batch i. -/
theorem c9_reduce_pass_batching (gen : GenCall → Except GenerationError (List Char))
    (sums : List (List Char)) :
    (toBatches sums).flatten = sums ∧
    (∀ b ∈ toBatches sums, b.length ≤ max_summaries_per_reduce) ∧
    (∀ next, gatherE (fun b => gen (GenCall.combineCall b)) (toBatches sums) =
        Except.ok next →
      List.Forall₂ (fun b s => gen (GenCall.combineCall b) = Except.ok s)
        (toBatches sums) next) :=
  ⟨toBatches_flatten sums.length sums (Nat.le_refl _),
   toBatches_mem_length sums.length sums (Nat.le_refl _),
   fun next hm => gatherE_ok_forall2 _ _ next hm⟩

/-- Witness for C9 at eleven summaries and the always-succeeding oracle. -/
theorem c9_witness :
    ((toBatches (List.replicate 11 (['x'] : List Char))).flatten =
        List.replicate 11 ['x']) ∧
    (∀ b ∈ toBatches (List.replicate 11 (['x'] : List Char)),
        b.length ≤ max_summaries_per_reduce) ∧
    List.Forall₂ (fun b s => wGen (GenCall.combineCall b) = Except.ok s)
      (toBatches (List.replicate 11 (['x'] : List Char))) ["ok".data, "ok".data] := by
  refine ⟨(c9_reduce_pass_batching wGen (List.replicate 11 ['x'])).1,
    (c9_reduce_pass_batching wGen (List.replicate 11 ['x'])).2.1,
    (c9_reduce_pass_batching wGen (List.replicate 11 ['x'])).2.2
      ["ok".data, "ok".data] ?_⟩
  rw [toBatches_replicate11]
  rfl
